import Mathlib

/-!
# Verification development for the `thevenin` battery-simulation package

The repository ships only documentation (tutorial notebooks, a changelog,
reStructuredText model descriptions and CI configuration); the Python package
code itself is not part of the checked-out sources.  Every definition below is
therefore modelled from the natural-language specification and the in-repo
documentation, using exact rational arithmetic (`ℚ`) in place of IEEE floats,
explicit state passing in place of object mutation, and a fixed-grid explicit
Euler integrator as the executable model of the external DAE/ODE solver.
-/

namespace Thevenin

/-! ## Save-time grids (`Experiment.add_step` tspan handling) -/

/-- Modelled from the spec: `numpy.arange(start, stop, step)` over exact
rationals.  For a positive step the result is the points
`start + i*step` for `0 ≤ i < ⌈(stop - start)/step⌉`; for a non-positive
step the model returns the empty list (the package never uses that case). -/
def arange (start stop step : ℚ) : List ℚ :=
  if 0 < step then
    (List.range (Int.toNat ⌈(stop - start) / step⌉)).map
      (fun i : ℕ => start + (i : ℚ) * step)
  else []

/-- Modelled from the spec: `numpy.linspace(start, stop, num)` over exact
rationals — `num` evenly spaced points from `start` to `stop` inclusive.
Rational division by zero is zero, which reproduces numpy's `num = 0`
(empty) and `num = 1` (`[start]`) edge cases with a single formula. -/
def linspace (start stop : ℚ) (num : ℕ) : List ℚ :=
  (List.range num).map (fun i : ℕ => start + (i : ℚ) * (stop - start) / ((num : ℚ) - 1))

/-- Modelled from the spec: the second element of a step's `tspan` pair.  The
Python code dispatches solely on whether the value is a `float` (a save-time
increment `dt`) or an `int` (a point count `Nt`); the two constructors of
this type are the shallow embedding of that type-based dispatch. -/
inductive TSpanSecond where
  | dt (v : ℚ)
  | Nt (n : ℕ)
deriving DecidableEq

/-- Modelled from the spec: the save-time grid a step stores for
`tspan = (t_max, second)` — `arange(0, t_max + dt, dt)` when the second
element is fractional/real, `linspace(0, t_max, Nt)` when it is a whole
count. -/
def saveGrid (tmax : ℚ) : TSpanSecond → List ℚ
  | .dt v => arange 0 (tmax + v) v
  | .Nt n => linspace 0 tmax n

/-! ## Parameter set, state vector and governing equations -/

/-- Modelled from the spec: the validated, immutable-after-construction
parameter set (§3).  Functional parameters are exact-rational functions;
`R j` / `C j` give the resistor and capacitor curves of RC pair `j`
(indices `1 .. numRCpairs`). -/
structure Params where
  numRCpairs : ℕ
  soc0 : ℚ
  capacity : ℚ
  ce : ℚ
  mass : ℚ
  isothermal : Bool
  Cp : ℚ
  Tinf : ℚ
  hTherm : ℚ
  ATherm : ℚ
  gamma : ℚ
  Mhyst : ℚ → ℚ
  ocv : ℚ → ℚ
  R0 : ℚ → ℚ → ℚ
  R : ℕ → ℚ → ℚ → ℚ
  C : ℕ → ℚ → ℚ → ℚ

/-- Modelled from the spec: the live State Vector (§3) — state of charge,
one overpotential per RC pair, cell temperature, hysteresis level. -/
structure SimState where
  soc : ℚ
  V : List ℚ
  Tcell : ℚ
  h : ℚ
deriving DecidableEq

/-- Modelled from the spec: the rested condition — `soc0`, zero
overpotentials, ambient temperature, zero hysteresis. -/
def restedState (p : Params) : SimState :=
  { soc := p.soc0, V := List.replicate p.numRCpairs 0, Tcell := p.Tinf, h := 0 }

/-- Modelled from the spec (§4.4): d(soc)/dt = −I/(3600·Q_max), with
charge-direction current (I < 0) scaled by the coulombic efficiency `ce`
and discharge-direction current unscaled. -/
def socDot (p : Params) (I : ℚ) : ℚ :=
  if I < 0 then -(p.ce * I) / (3600 * p.capacity) else -I / (3600 * p.capacity)

/-- Modelled from the spec (§4.4): terminal voltage
`V_cell = V_ocv(soc) − Σⱼ Vⱼ − I·R0(soc, T_cell) − h`, the last term being
the additive hysteresis voltage contribution. -/
def VcellOf (p : Params) (I : ℚ) (s : SimState) : ℚ :=
  p.ocv s.soc - s.V.sum - I * p.R0 s.soc s.Tcell - s.h

/-- Modelled from the spec (§4.4): Plett-style hysteresis rate — the spec
leaves the exact functional form open (§9) but fixes that the state is
first-order, driven by the sign and magnitude of the current, with rate
parameter `gamma` and saturation magnitude `M_hyst(soc)`. -/
def hDot (p : Params) (I : ℚ) (s : SimState) : ℚ :=
  |p.gamma * I / (3600 * p.capacity)| *
    ((if I < 0 then p.Mhyst s.soc else -(p.Mhyst s.soc)) - s.h)

/-- Modelled from the spec (§4.4): heat generation
`Q_gen = I·(V_ocv(soc) − V_cell)`; the hysteresis contribution enters
through the hysteresis term inside `V_cell`. -/
def qgen (p : Params) (I : ℚ) (s : SimState) : ℚ :=
  I * (p.ocv s.soc - VcellOf p I s)

/-- Modelled from the spec (§4.4): convective heat loss
`Q_conv = h_therm·A_therm·(T_inf − T_cell)`. -/
def qconv (p : Params) (s : SimState) : ℚ :=
  p.hTherm * p.ATherm * (p.Tinf - s.Tcell)

/-- Modelled from the spec (§4.4): one explicit-Euler update of the State
Vector over an interval `dt` under load current `I` — the executable model
of the external integrator's advance.  The thermal state is frozen when
`isothermal` is true. -/
def eulerStep (p : Params) (I dt : ℚ) (s : SimState) : SimState :=
  { soc := s.soc + dt * socDot p I,
    V := s.V.mapIdx (fun j v =>
      v + dt * (-v / (p.R (j+1) s.soc s.Tcell * p.C (j+1) s.soc s.Tcell)
                 + I / p.C (j+1) s.soc s.Tcell)),
    Tcell := if p.isothermal then s.Tcell
             else s.Tcell + dt * (qgen p I s + qconv p s) / (p.mass * p.Cp),
    h := s.h + dt * hDot p I s }

/-! ## Experiment steps and the per-step solve -/

/-- Modelled from the spec (§4.5): the three control modes, each carrying
explicit units in its name. -/
inductive Mode where
  | currentA
  | voltageV
  | powerW
deriving DecidableEq

/-- Modelled from the spec (§4.5): an output quantity a Limit can name. -/
inductive OutVar where
  | voltageV
  | currentA
  | powerW
  | socVar
  | temperatureK
deriving DecidableEq

/-- Modelled from the spec (§4.5): one protocol step — control mode, control
value as a callable of elapsed step time (constants as constant functions),
time-span specification, and early-termination limits. -/
structure Step where
  mode : Mode
  value : ℚ → ℚ
  tmax : ℚ
  second : TSpanSecond
  limits : List (OutVar × ℚ)

/-- Modelled from the spec (§4.3): the backend integrator's termination
condition for one step, reported through the result rather than raised. -/
inductive SolverOutcome where
  | success
  | event
  | nonConverged
  | badInitCond
  | maxSteps
deriving DecidableEq

/-- Whether the backend outcome counts as a successful integration. -/
def outcomeSuccess : SolverOutcome → Bool
  | .success => true
  | .event => true
  | _ => false

/-- Modelled from the spec (§9): a small closed status enumeration mapped
from the backend's native codes — nonnegative on success, negative on
failure. -/
def outcomeStatus : SolverOutcome → ℤ
  | .success => 0
  | .event => 2
  | .nonConverged => -1
  | .badInitCond => -2
  | .maxSteps => -3

/-- Modelled from the spec (§4.4): the load current implied by a step's
control mode at time `t` in state `s`.  Current control is explicit
forcing; voltage control inverts the (affine-in-I) terminal-voltage
relation; power control runs a short fixed-point iteration
`I ↦ P / V_cell(I)` as the model of the implicit algebraic solve. -/
def stepCurrent (p : Params) (st : Step) (s : SimState) (t : ℚ) : ℚ :=
  match st.mode with
  | .currentA => st.value t
  | .voltageV => (p.ocv s.soc - s.V.sum - s.h - st.value t) / p.R0 s.soc s.Tcell
  | .powerW => (fun I => st.value t / VcellOf p I s)^[5] (st.value t / p.ocv s.soc)

/-- One saved trajectory point: save time, load current, state. -/
structure TrajPt where
  t : ℚ
  I : ℚ
  s : SimState
deriving DecidableEq

/-- The value of a named output quantity at a trajectory point. -/
def evalOutVar (p : Params) (pt : TrajPt) : OutVar → ℚ
  | .voltageV => VcellOf p pt.I pt.s
  | .currentA => pt.I
  | .powerW => pt.I * VcellOf p pt.I pt.s
  | .socVar => pt.s.soc
  | .temperatureK => pt.s.Tcell

/-- Modelled from the spec: march the explicit-Euler model across the save
grid, recording time, current and state at every saved point. -/
def march (p : Params) (st : Step) : List ℚ → SimState → List TrajPt
  | [], _ => []
  | [t], s => [⟨t, stepCurrent p st s t, s⟩]
  | t :: t' :: rest, s =>
    ⟨t, stepCurrent p st s t, s⟩ ::
      march p st (t' :: rest) (eulerStep p (stepCurrent p st s t) (t' - t) s)

/-- Signed distance of a limit's quantity from its threshold. -/
def limitGap (p : Params) (l : OutVar × ℚ) (pt : TrajPt) : ℚ :=
  evalOutVar p pt l.1 - l.2

/-- Modelled from the spec (§4.3): each Limit is a root-finding event; the
trajectory is truncated at the first saved point whose limit value has
crossed (changed sign or hit zero relative to the step's first point).
Returns the kept points and whether an event fired. -/
def truncateAtLimit (p : Params) (st : Step) (traj : List TrajPt) :
    List TrajPt × Bool :=
  match traj with
  | [] => ([], false)
  | pt0 :: rest =>
    match rest.findIdx? (fun pt =>
        st.limits.any (fun l => decide (limitGap p l pt * limitGap p l pt0 ≤ 0))) with
    | none => (pt0 :: rest, false)
    | some i => (pt0 :: rest.take (i + 1), true)

/-! ## Step and cycle solution containers -/

/-- Modelled from the spec (§4.6): one step's post-processed output — named
equal-length quantity arrays plus the Solver Result metadata.  The
evaluation counters are modelled as the number of saved points. -/
@[ext]
structure StepSolution where
  time : List ℚ
  soc : List ℚ
  voltage : List ℚ
  current : List ℚ
  temperature : List ℚ
  hyst : List ℚ
  success : Bool
  status : ℤ
  nfev : ℕ
  njev : ℕ
deriving DecidableEq

/-- Well-formedness of a StepSolution: every quantity array has the same
length as the time array (as produced by any run of the model). -/
def WFStep (s : StepSolution) : Prop :=
  s.soc.length = s.time.length ∧ s.voltage.length = s.time.length ∧
  s.current.length = s.time.length ∧ s.temperature.length = s.time.length ∧
  s.hyst.length = s.time.length

instance (s : StepSolution) : Decidable (WFStep s) := by
  unfold WFStep; infer_instance

/-- Modelled from the spec (§4.4, §4.3): execute exactly one step from the
given live state.  The backend's termination condition `oc` is an input
(the numerical environment decides it); the function is total — a failed
integration is reported through the success flag and status code of the
returned StepSolution, never raised.  Returns the solution together with
the updated live state (the state at the last saved point). -/
def runStepAt (p : Params) (oc : SolverOutcome) (s0 : SimState) (st : Step) :
    StepSolution × SimState :=
  let tr := truncateAtLimit p st (march p st (saveGrid st.tmax st.second) s0)
  ({ time := tr.1.map (fun pt => pt.t),
     soc := tr.1.map (fun pt => pt.s.soc),
     voltage := tr.1.map (fun pt => VcellOf p pt.I pt.s),
     current := tr.1.map (fun pt => pt.I),
     temperature := tr.1.map (fun pt => pt.s.Tcell),
     hyst := tr.1.map (fun pt => pt.s.h),
     success := outcomeSuccess oc,
     status := if outcomeSuccess oc then (if tr.2 then 2 else 0) else outcomeStatus oc,
     nfev := tr.1.length,
     njev := tr.1.length },
   ((tr.1.getLast?).map TrajPt.s).getD s0)

/-- Modelled from the spec (§4.4): execute a list of steps in order, each
starting from the live state left by the previous one, collecting one
StepSolution per step.  `ocs` lists the backend outcome of each step
(defaulting to success); a failed step does not abort the remaining
steps. -/
def runSteps (p : Params) :
    List Step → List SolverOutcome → SimState → List StepSolution × SimState
  | [], _, s => ([], s)
  | st :: rest, ocs, s =>
    let r := runStepAt p (ocs.headD SolverOutcome.success) s st
    let rr := runSteps p rest ocs.tail r.2
    (r.1 :: rr.1, rr.2)

/-- Modelled from the spec (§4.7): the aggregate of several StepSolutions —
per-quantity arrays concatenated in step order with each step's local time
offset by the running total elapsed time, per-step metadata kept as
parallel lists, together with the bookkeeping (per-step point counts,
per-step time offsets, running total) the construction maintains. -/
@[ext]
structure CycleSolution where
  time : List ℚ
  soc : List ℚ
  voltage : List ℚ
  current : List ℚ
  temperature : List ℚ
  hyst : List ℚ
  success : List Bool
  status : List ℤ
  nfev : List ℕ
  njev : List ℕ
  counts : List ℕ
  offsets : List ℚ
  elapsedTotal : ℚ
deriving DecidableEq

/-- The elapsed duration of one step: the last entry of its (zero-based)
time array, zero for an empty array. -/
def stepElapsed (s : StepSolution) : ℚ := s.time.getLastD 0

/-- Modelled from the spec (§4.7): build the aggregate of a list of
StepSolutions, the first step's local time being offset by `off` and the
running total advancing by each step's elapsed duration. -/
def ofStepsAux : ℚ → List StepSolution → CycleSolution
  | off, [] =>
    { time := [], soc := [], voltage := [], current := [], temperature := [],
      hyst := [], success := [], status := [], nfev := [], njev := [],
      counts := [], offsets := [], elapsedTotal := off }
  | off, s :: rest =>
    let c := ofStepsAux (off + stepElapsed s) rest
    { time := s.time.map (fun x => x + off) ++ c.time,
      soc := s.soc ++ c.soc,
      voltage := s.voltage ++ c.voltage,
      current := s.current ++ c.current,
      temperature := s.temperature ++ c.temperature,
      hyst := s.hyst ++ c.hyst,
      success := s.success :: c.success,
      status := s.status :: c.status,
      nfev := s.nfev :: c.nfev,
      njev := s.njev :: c.njev,
      counts := s.time.length :: c.counts,
      offsets := off :: c.offsets,
      elapsedTotal := c.elapsedTotal }

/-- Modelled from the spec (§4.7): CycleSolution construction from one or
more StepSolutions, the cumulative time axis starting at zero. -/
def ofSteps (ss : List StepSolution) : CycleSolution := ofStepsAux 0 ss

/-- Modelled from the spec (§4.7): append one further StepSolution after
construction, offsetting its local time by the running total elapsed time
and extending the per-step metadata lists. -/
def appendStep (c : CycleSolution) (s : StepSolution) : CycleSolution :=
  { time := c.time ++ s.time.map (fun x => x + c.elapsedTotal),
    soc := c.soc ++ s.soc,
    voltage := c.voltage ++ s.voltage,
    current := c.current ++ s.current,
    temperature := c.temperature ++ s.temperature,
    hyst := c.hyst ++ s.hyst,
    success := c.success ++ [s.success],
    status := c.status ++ [s.status],
    nfev := c.nfev ++ [s.nfev],
    njev := c.njev ++ [s.njev],
    counts := c.counts ++ [s.time.length],
    offsets := c.offsets ++ [c.elapsedTotal],
    elapsedTotal := c.elapsedTotal + stepElapsed s }

/-- Modelled from the spec (§4.7): `append(*solutions)` — extend the
aggregate with further StepSolutions in the order given. -/
def CycleSolution.append (c : CycleSolution) (ss : List StepSolution) : CycleSolution :=
  ss.foldl appendStep c

/-- Start index of step `i`'s slice inside the concatenated arrays. -/
def startIdx (c : CycleSolution) (i : ℕ) : ℕ := (c.counts.take i).sum

/-- Modelled from the spec (§4.7): `get_steps` with a single index —
extract step `i`'s slice as a StepSolution, the time axis re-based to the
step's own zero. -/
def getStep (c : CycleSolution) (i : ℕ) : StepSolution :=
  { time := (((c.time.drop (startIdx c i)).take (c.counts.getD i 0)).map
      (fun x => x - c.offsets.getD i 0)),
    soc := (c.soc.drop (startIdx c i)).take (c.counts.getD i 0),
    voltage := (c.voltage.drop (startIdx c i)).take (c.counts.getD i 0),
    current := (c.current.drop (startIdx c i)).take (c.counts.getD i 0),
    temperature := (c.temperature.drop (startIdx c i)).take (c.counts.getD i 0),
    hyst := (c.hyst.drop (startIdx c i)).take (c.counts.getD i 0),
    success := c.success.getD i true,
    status := c.status.getD i 0,
    nfev := c.nfev.getD i 0,
    njev := c.njev.getD i 0 }

/-- Modelled from the spec (§4.4): `run(experiment, reset_state)` —
execute every step in order from the current live state, return the
CycleSolution spanning all steps, and reset the live state to the rested
condition afterwards unless `resetState` is false. -/
def run (p : Params) (steps : List Step) (ocs : List SolverOutcome)
    (s0 : SimState) (resetState : Bool) : CycleSolution × SimState :=
  let r := runSteps p steps ocs s0
  (ofSteps r.1, if resetState then restedState p else r.2)

/-- Modelled from the spec (§4.9): a Prediction advance — one control
interval from a caller-supplied state, returning the ending state, the
terminal voltage at the last saved point, and the success flag.  Total:
a failed advance reports failure, it does not raise. -/
def predict (p : Params) (oc : SolverOutcome) (s : SimState) (st : Step) :
    SimState × ℚ × Bool :=
  let r := runStepAt p oc s st
  (r.2, r.1.voltage.getLastD 0, r.1.success)

/-! ## Simulation object: construction, `pre`, parameter mutation -/

/-- Modelled from the spec (§4.4): a Simulation owns its parameter set and
its live State Vector (object mutation is modelled as explicit state
passing). -/
structure Simulation where
  params : Params
  state : SimState

/-- Modelled from the spec (§4.4): construction runs the pre-processor, so
a fresh Simulation starts at the rested condition. -/
def Simulation.construct (p : Params) : Simulation :=
  { params := p, state := restedState p }

/-- Modelled from the spec (§4.4): `pre()` — reset the live State Vector to
the rested condition consistent with `soc0` and the current parameters.  A
pure state reset: the parameter set (and with it the equation structure)
is untouched.  There is no operation changing `numRCpairs`; that field is
read-only after construction, structurally. -/
def Simulation.pre (m : Simulation) : Simulation :=
  { m with state := restedState m.params }

/-- Modelled from the spec (§4.4, §8): mutate the `isothermal` parameter —
one of the parameters that, unlike `numRCpairs`, may be changed after
construction (followed by a `pre()` call to take effect). -/
def Simulation.setIsothermal (m : Simulation) (b : Bool) : Simulation :=
  { m with params := { m.params with isothermal := b } }

/-! ## Load-function library -/

/-- Clamp `x` into the interval `[lo, hi]`. -/
def clampQ (lo hi x : ℚ) : ℚ := max lo (min x hi)

/-- The overflow threshold of double-precision `exp`: arguments beyond
roughly 709.78 overflow and raise a numeric-overflow warning. -/
def expOverflowThreshold : ℚ := 709

/-- A strictly positive rational surrogate for the exponential function
(its exact values are irrelevant to the claims proved here, which concern
only definedness, sign and boundedness of the sigmoid). -/
def expApprox (x : ℚ) : ℚ :=
  if 0 ≤ x then 1 + x + x ^ 2 / 2 else 1 / (1 - x + x ^ 2 / 2)

/-- Modelled from the spec: double-precision `exp` as seen through numpy —
arguments above the overflow threshold produce an overflow warning
(modelled as `none`); all other arguments produce a finite value. -/
def safeExpQ (x : ℚ) : Option ℚ :=
  if expOverflowThreshold < x then none else some (expApprox x)

/-- Modelled from the spec (§4.2): `Ramp(slope, intercept)` — the callable
`f(t) = intercept + slope·t`. -/
def Ramp (slope intercept : ℚ) : ℚ → ℚ := fun t => intercept + slope * t

/-- Modelled from the spec (§4.2): the argument handed to the exponential
inside the `Ramp2Constant` sigmoid, clamped to `[-700, 700]` before
evaluation so that steep ramps can never overflow. -/
def ramp2ConstantArg (rate target t : ℚ) : ℚ :=
  clampQ (-700) 700 (rate / target * t)

/-- Modelled from the spec (§4.2): `Ramp2Constant(rate, target)` — a
sigmoid-shaped callable rising towards `target` at approximately the given
rate; `none` would indicate a numeric-overflow warning from the inner
exponential, which the clamping rules out. -/
def Ramp2Constant (rate target : ℚ) : ℚ → Option ℚ := fun t =>
  (safeExpQ (-(ramp2ConstantArg rate target t))).map (fun e => target / (1 + e))

/-! ## Configuration loading: default-name resolution and bundled defaults -/

/-- Modelled from the spec (§6): a requested configuration file reference,
decomposed into whether an explicit directory part (relative like `./` or
absolute) was supplied and whether the base name equals the bundled
default file's name (`params.yaml`). -/
structure FileRef where
  hasExplicitDir : Bool
  baseIsDefaultName : Bool
deriving DecidableEq

/-- Where a configuration load resolves to. -/
inductive ParamSource where
  | bundledDefault
  | localFile (f : FileRef)
deriving DecidableEq

/-- Modelled from the spec (§6 and the tutorial): a bare default file name
resolves to the bundled default parameter set in preference to any file of
the same name in the working directory; a reference with an explicit
directory part resolves to that local file. -/
def resolveParams (f : FileRef) (_cwdHasSameName : Bool) : ParamSource :=
  if !f.hasExplicitDir && f.baseIsDefaultName then ParamSource.bundledDefault
  else ParamSource.localFile f

/-- Modelled from the spec: the bundled default parameter set, transcribed
from the default `params.yaml` shown in the tutorial notebook (the
exponential inside the default `C1` curve is the rational surrogate
`expApprox`). -/
def defaultParams : Params :=
  { numRCpairs := 1,
    soc0 := 1,
    capacity := 75,
    ce := 1,
    mass := 1.9,
    isothermal := false,
    Cp := 745,
    Tinf := 300,
    hTherm := 12,
    ATherm := 1,
    gamma := 0,
    Mhyst := fun _ => 0,
    ocv := fun soc =>
      84.6 * soc ^ 7 - 348.6 * soc ^ 6 + 592.3 * soc ^ 5 - 534.3 * soc ^ 4
        + 275 * soc ^ 3 - 80.3 * soc ^ 2 + 12.8 * soc + 2.8,
    R0 := fun soc Tcell => 1e-4 + soc / 1e5 - Tcell / 3e9,
    R := fun j soc Tcell => if j = 1 then 1e-5 + soc / 1e5 - Tcell / 3e9 else 0,
    C := fun j soc Tcell =>
      if j = 1 then 1e2 + soc * 1e4 + expApprox (Tcell / 300) else 0 }

/-- A small parameter set with simple constant curves, used to exercise the
model at concrete inputs. -/
def sampleParams : Params :=
  { numRCpairs := 1,
    soc0 := 1,
    capacity := 2,
    ce := 1/2,
    mass := 1,
    isothermal := true,
    Cp := 1,
    Tinf := 300,
    hTherm := 0,
    ATherm := 1,
    gamma := 1,
    Mhyst := fun _ => 0,
    ocv := fun soc => 3 + soc,
    R0 := fun _ _ => 1,
    R := fun _ _ _ => 1,
    C := fun _ _ _ => 1 }

/-- The all-empty StepSolution, used as an out-of-range lookup default. -/
def emptyStepSolution : StepSolution :=
  { time := [], soc := [], voltage := [], current := [], temperature := [],
    hyst := [], success := true, status := 0, nfev := 0, njev := 0 }

/-- A concrete two-point StepSolution (a one-second rest), used to exercise
the aggregation model at a concrete input. -/
def wStepA : StepSolution :=
  { time := [0, 1], soc := [1, 1], voltage := [4, 4], current := [0, 0],
    temperature := [300, 300], hyst := [0, 0], success := true, status := 0,
    nfev := 2, njev := 2 }

/-- A concrete two-point StepSolution (a two-second discharge), used to
exercise the aggregation model at a concrete input. -/
def wStepB : StepSolution :=
  { time := [0, 2], soc := [1, 9/10], voltage := [4, 7/2], current := [75, 75],
    temperature := [300, 301], hyst := [0, 0], success := true, status := 2,
    nfev := 2, njev := 2 }

/-- A trivial rest step (zero current, two saved points, no limits), used to
exercise the run model at a concrete input. -/
def wRestStep : Step :=
  { mode := Mode.currentA, value := fun _ => 0, tmax := 1,
    second := TSpanSecond.Nt 2, limits := [] }

/-! ## Helper lemmas -/

theorem linspace_getD (start stop : ℚ) (num i : ℕ) (d : ℚ) (h : i < num) :
    (linspace start stop num).getD i d
      = start + (i : ℚ) * (stop - start) / ((num : ℚ) - 1) := by
  unfold linspace
  have hlen : i < ((List.range num).map
      (fun i : ℕ => start + (i : ℚ) * (stop - start) / ((num : ℚ) - 1))).length := by
    rw [List.length_map, List.length_range]; exact h
  rw [List.getD_eq_getElem _ _ hlen, List.getElem_map, List.getElem_range]

/-! ## Claim theorems -/

/-- C1: for every step, a fractional second tspan element `dt` yields the
save grid `arange(0, t_max + dt, dt)` (every `dt` seconds from 0 through
`t_max`: `tspan = (600.0, 60.0)` gives exactly the 11 points 0, 60, …,
600), while a whole-count second element `Nt` yields
`linspace(0, t_max, Nt)` (`tspan = (600.0, 60)` gives exactly 60 evenly
spaced points from 0 to 600 inclusive); the integer/real type of the
second element is the sole selector between the two constructions. -/
theorem c1_save_grid_construction :
    (∀ tmax v, saveGrid tmax (TSpanSecond.dt v) = arange 0 (tmax + v) v)
    ∧ (∀ tmax n, saveGrid tmax (TSpanSecond.Nt n) = linspace 0 tmax n)
    ∧ saveGrid 600 (TSpanSecond.dt 60)
        = [0, 60, 120, 180, 240, 300, 360, 420, 480, 540, 600]
    ∧ (saveGrid 600 (TSpanSecond.dt 60)).length = 11
    ∧ (saveGrid 600 (TSpanSecond.Nt 60)).length = 60
    ∧ (saveGrid 600 (TSpanSecond.Nt 60)).getD 0 1 = 0
    ∧ (saveGrid 600 (TSpanSecond.Nt 60)).getLastD 0 = 600
    ∧ (∀ i : ℕ, i + 1 < 60 →
        (saveGrid 600 (TSpanSecond.Nt 60)).getD (i + 1) 0
          - (saveGrid 600 (TSpanSecond.Nt 60)).getD i 0 = 600 / 59) := by
  have hgrid : saveGrid 600 (TSpanSecond.dt 60)
      = [0, 60, 120, 180, 240, 300, 360, 420, 480, 540, 600] := by
    show arange 0 (600 + 60) 60 = _
    rw [arange, if_pos (by norm_num)]
    have h : Int.toNat ⌈(((600:ℚ) + 60) - 0) / 60⌉ = 11 := by
      have h1 : ⌈(((600:ℚ) + 60) - 0) / 60⌉ = (11 : ℤ) := by norm_num
      rw [h1]; rfl
    rw [h]
    simp [List.range_succ]
    norm_num
  refine ⟨fun tmax v => rfl, fun tmax n => rfl, hgrid, by rw [hgrid]; rfl, ?_, ?_, ?_, ?_⟩
  · show (linspace 0 600 60).length = 60
    rw [linspace, List.length_map, List.length_range]
  · show (linspace 0 600 60).getD 0 1 = 0
    rw [linspace_getD _ _ _ _ _ (by norm_num)]
    norm_num
  · show (linspace 0 600 60).getLastD 0 = 600
    rw [linspace]
    simp only [List.range_succ, List.map_append, List.map_cons, List.map_nil,
      List.getLastD_concat]
    norm_num
  · intro i hi
    show (linspace 0 600 60).getD (i + 1) 0 - (linspace 0 600 60).getD i 0 = 600 / 59
    rw [linspace_getD _ _ _ _ _ hi, linspace_getD _ _ _ _ _ (by omega)]
    push_cast
    ring

/-- C1 witness: the even-spacing conjunct instantiated at the first pair of
points of the 60-point grid. -/
theorem c1_save_grid_construction_witness :
    (0 : ℕ) + 1 < 60
    ∧ (saveGrid 600 (TSpanSecond.Nt 60)).getD (0 + 1) 0
        - (saveGrid 600 (TSpanSecond.Nt 60)).getD 0 0 = 600 / 59 :=
  ⟨by norm_num, c1_save_grid_construction.2.2.2.2.2.2.2 0 (by norm_num)⟩

/-- C3: in the governing equations, d(soc)/dt = −I/(3600·Q_max) with
positive current discharging the battery, and the coulombic efficiency
`ce` scales charge-direction current (I < 0) while discharge-direction
current is unscaled: d(soc)/dt = −ce·I/(3600·Q_max) for I < 0 and
−I/(3600·Q_max) for I ≥ 0. -/
theorem c3_soc_dynamics_ce (p : Params) (I dt : ℚ) (s : SimState) :
    (eulerStep p I dt s).soc = s.soc + dt * socDot p I
    ∧ (I < 0 → socDot p I = -(p.ce * I) / (3600 * p.capacity))
    ∧ (0 ≤ I → socDot p I = -I / (3600 * p.capacity))
    ∧ (0 < I → 0 < p.capacity → socDot p I < 0)
    ∧ (I < 0 → 0 < p.capacity → 0 < p.ce → 0 < socDot p I) := by
  refine ⟨rfl, fun h => by rw [socDot, if_pos h], fun h => by
    rw [socDot, if_neg (not_lt.mpr h)], fun hI hQ => ?_, fun hI hQ hce => ?_⟩
  · rw [socDot, if_neg (not_lt.mpr hI.le)]
    exact div_neg_of_neg_of_pos (neg_neg_iff_pos.mpr hI) (by positivity)
  · rw [socDot, if_pos hI]
    apply div_pos _ (by positivity)
    have : p.ce * I < 0 := mul_neg_of_pos_of_neg hce hI
    linarith

/-- C3 witness: at `sampleParams` (capacity 2, ce 1/2) a charge current of
−1 A raises soc. -/
theorem c3_soc_dynamics_ce_witness :
    ((-1 : ℚ) < 0 ∧ (0 : ℚ) < sampleParams.capacity ∧ (0 : ℚ) < sampleParams.ce)
    ∧ 0 < socDot sampleParams (-1) :=
  ⟨⟨by norm_num, by norm_num [sampleParams], by norm_num [sampleParams]⟩,
   (c3_soc_dynamics_ce sampleParams (-1) 1 (restedState sampleParams)).2.2.2.2
     (by norm_num) (by norm_num [sampleParams]) (by norm_num [sampleParams])⟩

/-- The exponential surrogate is strictly positive. -/
theorem expApprox_pos (x : ℚ) : 0 < expApprox x := by
  rw [expApprox]
  split
  · have h2 : 0 ≤ x ^ 2 / 2 := by positivity
    linarith
  · apply div_pos one_pos
    nlinarith [sq_nonneg (x - 1)]

/-- The clamped sigmoid argument lies within the clamp bounds. -/
theorem abs_clampQ_le (x : ℚ) : |clampQ (-700) 700 x| ≤ 700 := by
  rw [abs_le]
  exact ⟨le_max_left _ _, max_le (by norm_num) (min_le_right _ _)⟩

/-- C7: for every `Ramp2Constant` callable and every evaluation time —
including arbitrarily large requested approach rates — the exponential
argument is clamped into `[-700, 700]`, below the overflow threshold, so
the evaluation never produces an overflow warning (`isSome`) and the
returned value is a finite number strictly between 0 and the target. -/
theorem c7_ramp2constant_bounded (rate target t : ℚ) :
    (Ramp2Constant rate target t).isSome = true
    ∧ |ramp2ConstantArg rate target t| ≤ 700
    ∧ (0 < target →
        0 < (Ramp2Constant rate target t).getD 0
        ∧ (Ramp2Constant rate target t).getD 0 < target) := by
  have habs : |ramp2ConstantArg rate target t| ≤ 700 := abs_clampQ_le _
  have hne : ¬ expOverflowThreshold < -(ramp2ConstantArg rate target t) := by
    rw [expOverflowThreshold, not_lt]
    have := (abs_le.mp habs).1
    linarith
  have hval : Ramp2Constant rate target t
      = some (target / (1 + expApprox (-(ramp2ConstantArg rate target t)))) := by
    rw [Ramp2Constant, safeExpQ, if_neg hne, Option.map_some']
  refine ⟨by rw [hval]; rfl, habs, fun htgt => ?_⟩
  have he := expApprox_pos (-(ramp2ConstantArg rate target t))
  rw [hval, Option.getD_some]
  constructor
  · exact div_pos htgt (by linarith)
  · rw [div_lt_iff₀ (by linarith)]
    nlinarith

/-- C7 witness: a rate scaled by 10⁶ (1.5·10⁹ A/s towards a 1500 A target)
evaluated at t = 1 s stays overflow-free and inside (0, target). -/
theorem c7_ramp2constant_bounded_witness :
    (0 : ℚ) < 1500
    ∧ 0 < (Ramp2Constant 1500000000 1500 1).getD 0
    ∧ (Ramp2Constant 1500000000 1500 1).getD 0 < 1500 :=
  ⟨by norm_num,
   ((c7_ramp2constant_bounded 1500000000 1500 1).2.2 (by norm_num)).1,
   ((c7_ramp2constant_bounded 1500000000 1500 1).2.2 (by norm_num)).2⟩

/-- C8: `num_RC_pairs` is read-only after construction (no mutating
operation exists for it — changing it is structurally impossible), while
other parameters such as `isothermal` may be mutated and take effect after
a `pre()` call; `pre()` is a pure state reset that leaves the parameter
set (and hence the equation structure) untouched. -/
theorem c8_num_rc_pairs_read_only (m : Simulation) (b : Bool) (I dt : ℚ) (s : SimState) :
    (m.pre).params = m.params
    ∧ (m.pre).state = restedState m.params
    ∧ (m.setIsothermal b).params.numRCpairs = m.params.numRCpairs
    ∧ ((m.setIsothermal b).pre).params.isothermal = b
    ∧ ((m.setIsothermal b).pre).state = restedState (m.setIsothermal b).params
    ∧ (eulerStep (m.setIsothermal true).params I dt s).Tcell = s.Tcell :=
  ⟨rfl, rfl, rfl, rfl, rfl, rfl⟩

/-- C10: a bare default configuration file name resolves to the bundled
default parameter set even when the working directory holds a file of the
same name; a local file is only selected when an explicit relative or
absolute path is supplied. -/
theorem c10_default_name_precedence (b : Bool) (f : FileRef) :
    resolveParams ⟨false, true⟩ b = ParamSource.bundledDefault
    ∧ (f.hasExplicitDir = true → resolveParams f b = ParamSource.localFile f)
    ∧ (f.baseIsDefaultName = false → resolveParams f b = ParamSource.localFile f) := by
  refine ⟨rfl, fun h => ?_, fun h => ?_⟩
  · rw [resolveParams, h]
    rfl
  · rw [resolveParams, h]
    simp

/-- C10 witness: an explicit relative path to a same-named local file (the
tutorial's `./params.yaml`) resolves to the local file, with the bundled
default still chosen for the bare name. -/
theorem c10_default_name_precedence_witness :
    resolveParams ⟨true, true⟩ true = ParamSource.localFile ⟨true, true⟩
    ∧ resolveParams ⟨false, true⟩ true = ParamSource.bundledDefault :=
  ⟨(c10_default_name_precedence true ⟨true, true⟩).2.1 rfl,
   (c10_default_name_precedence true ⟨true, true⟩).1⟩

/-- C2: for a two-step Experiment, `run(experiment, reset_state := false)`
and two sequential `run_step` calls on a freshly constructed, identically
parameterized model (both starting from the rested state, with the same
backend outcomes) produce the identical terminal live state and the
identical per-step output arrays; `run_step` executes exactly its step and
leaves the live state at the step's end point, with no reset. -/
theorem c2_state_continuity (p : Params) (a b : Step) (oc1 oc2 : SolverOutcome) :
    (run p [a, b] [oc1, oc2] (restedState p) false).2
      = (runStepAt p oc2 ((runStepAt p oc1 (restedState p) a).2) b).2
    ∧ (run p [a, b] [oc1, oc2] (restedState p) false).1
      = ofSteps [(runStepAt p oc1 (restedState p) a).1,
          (runStepAt p oc2 ((runStepAt p oc1 (restedState p) a).2) b).1] := by
  constructor
  · simp [run, runSteps]
  · simp [run, runSteps]

/-- Building an aggregate over `ss ++ [s]` is the same as building it over
`ss` and then appending `s` post-construction. -/
theorem ofStepsAux_snoc (s : StepSolution) :
    ∀ (ss : List StepSolution) (off : ℚ),
      ofStepsAux off (ss ++ [s]) = appendStep (ofStepsAux off ss) s := by
  intro ss
  induction ss with
  | nil =>
    intro off
    simp [ofStepsAux, appendStep]
  | cons s0 rest ih =>
    intro off
    simp only [List.cons_append, ofStepsAux, List.append_eq]
    rw [ih]
    simp [appendStep, List.append_assoc]

/-- C5: constructing a CycleSolution from `[a, b, c]` directly yields the
identical concatenated arrays and identical per-step metadata as
constructing it from `[a]` and then appending `b` and `c`. -/
theorem c5_incremental_append (a b c : StepSolution) :
    ofSteps [a, b, c] = (ofSteps [a]).append [b, c] := by
  show ofStepsAux 0 [a, b, c] = List.foldl appendStep (ofStepsAux 0 [a]) [b, c]
  rw [List.foldl_cons, List.foldl_cons, List.foldl_nil,
    ← ofStepsAux_snoc, ← ofStepsAux_snoc]
  rfl

/-- Every quantity array of the aggregate has length equal to the sum of
the contributing steps' saved-point counts. -/
theorem ofStepsAux_lengths :
    ∀ (ss : List StepSolution) (off : ℚ), (∀ s ∈ ss, WFStep s) →
      (ofStepsAux off ss).time.length = (ss.map (fun s => s.time.length)).sum
      ∧ (ofStepsAux off ss).soc.length = (ss.map (fun s => s.time.length)).sum
      ∧ (ofStepsAux off ss).voltage.length = (ss.map (fun s => s.time.length)).sum
      ∧ (ofStepsAux off ss).current.length = (ss.map (fun s => s.time.length)).sum
      ∧ (ofStepsAux off ss).temperature.length = (ss.map (fun s => s.time.length)).sum
      ∧ (ofStepsAux off ss).hyst.length = (ss.map (fun s => s.time.length)).sum := by
  intro ss
  induction ss with
  | nil => exact fun off _ => ⟨rfl, rfl, rfl, rfl, rfl, rfl⟩
  | cons s rest ih =>
    intro off hwf
    obtain ⟨h1, h2, h3, h4, h5⟩ := hwf s (List.mem_cons_self _ _)
    obtain ⟨i1, i2, i3, i4, i5, i6⟩ :=
      ih (off + stepElapsed s) (fun t ht => hwf t (List.mem_cons_of_mem _ ht))
    simp only [ofStepsAux, List.map_cons, List.sum_cons, List.length_append,
      List.length_map]
    exact ⟨by rw [i1], by rw [h1, i2], by rw [h2, i3], by rw [h3, i4],
      by rw [h4, i5], by rw [h5, i6]⟩

/-- Extracting step 0 from an aggregate built over `s :: rest` recovers
`s` exactly (the time axis re-based by the construction offset). -/
theorem getStep_ofStepsAux_zero (s : StepSolution) (rest : List StepSolution)
    (off : ℚ) (hwf : WFStep s) :
    getStep (ofStepsAux off (s :: rest)) 0 = s := by
  obtain ⟨h1, h2, h3, h4, h5⟩ := hwf
  simp only [getStep, ofStepsAux, startIdx]
  simp only [List.take_zero, List.sum_nil, List.drop_zero, List.getD_cons_zero]
  refine StepSolution.ext ?_ ?_ ?_ ?_ ?_ ?_ rfl rfl rfl rfl
  · rw [List.take_left' (by rw [List.length_map]), List.map_map]
    simp [Function.comp_def, add_sub_cancel_right]
  · exact List.take_left' h1
  · exact List.take_left' h2
  · exact List.take_left' h3
  · exact List.take_left' h4
  · exact List.take_left' h5

/-- Extracting step `i+1` from an aggregate built over `s :: rest` is
extracting step `i` from the aggregate built over `rest`. -/
theorem getStep_ofStepsAux_succ (s : StepSolution) (rest : List StepSolution)
    (off : ℚ) (i : ℕ) (hwf : WFStep s) :
    getStep (ofStepsAux off (s :: rest)) (i + 1)
      = getStep (ofStepsAux (off + stepElapsed s) rest) i := by
  obtain ⟨h1, h2, h3, h4, h5⟩ := hwf
  simp only [getStep, ofStepsAux, startIdx]
  simp only [List.getD_cons_succ, List.take_succ_cons, List.sum_cons]
  refine StepSolution.ext ?_ ?_ ?_ ?_ ?_ ?_ rfl rfl rfl rfl
  · rw [show s.time.length = (s.time.map (fun x => x + off)).length from
      (List.length_map _ _).symm, List.drop_append]
  · rw [show s.time.length = s.soc.length from h1.symm, List.drop_append]
  · rw [show s.time.length = s.voltage.length from h2.symm, List.drop_append]
  · rw [show s.time.length = s.current.length from h3.symm, List.drop_append]
  · rw [show s.time.length = s.temperature.length from h4.symm, List.drop_append]
  · rw [show s.time.length = s.hyst.length from h5.symm, List.drop_append]

/-- `getStep` on an aggregate of well-formed steps recovers each original
StepSolution. -/
theorem getStep_ofStepsAux_getD :
    ∀ (ss : List StepSolution) (off : ℚ) (i : ℕ), (∀ s ∈ ss, WFStep s) →
      i < ss.length → getStep (ofStepsAux off ss) i = ss.getD i emptyStepSolution := by
  intro ss
  induction ss with
  | nil => intro off i _ hi; simp at hi
  | cons s rest ih =>
    intro off i hwf hi
    cases i with
    | zero =>
      rw [List.getD_cons_zero]
      exact getStep_ofStepsAux_zero s rest off (hwf s (List.mem_cons_self _ _))
    | succ n =>
      rw [List.getD_cons_succ,
        getStep_ofStepsAux_succ s rest off n (hwf s (List.mem_cons_self _ _))]
      exact ih _ n (fun t ht => hwf t (List.mem_cons_of_mem _ ht)) (by simpa using hi)

/-- The stored per-step time offsets are the cumulative elapsed times. -/
theorem ofStepsAux_offsets :
    ∀ (ss : List StepSolution) (off : ℚ) (i : ℕ), i < ss.length →
      (ofStepsAux off ss).offsets.getD i 0
        = off + ((ss.take i).map stepElapsed).sum := by
  intro ss
  induction ss with
  | nil => intro off i hi; simp at hi
  | cons s rest ih =>
    intro off i hi
    cases i with
    | zero => simp [ofStepsAux]
    | succ n =>
      simp only [ofStepsAux, List.getD_cons_succ, List.take_succ_cons,
        List.map_cons, List.sum_cons]
      rw [ih _ n (by simpa using hi)]
      ring

/-- C4: a CycleSolution built from N well-formed StepSolutions has, for
every output quantity, an array whose length is the sum of the N steps'
saved-point counts; the concatenation is in step order with each step's
local time offset by the running total elapsed time (the stored offsets
are the cumulative elapsed times); and `get_steps(i)` reproduces exactly
the i-th step's original saved values for every valid index. -/
theorem c4_cycle_aggregation (ss : List StepSolution) (hwf : ∀ s ∈ ss, WFStep s) :
    ((ofSteps ss).time.length = (ss.map (fun s => s.time.length)).sum
      ∧ (ofSteps ss).soc.length = (ss.map (fun s => s.time.length)).sum
      ∧ (ofSteps ss).voltage.length = (ss.map (fun s => s.time.length)).sum
      ∧ (ofSteps ss).current.length = (ss.map (fun s => s.time.length)).sum
      ∧ (ofSteps ss).temperature.length = (ss.map (fun s => s.time.length)).sum
      ∧ (ofSteps ss).hyst.length = (ss.map (fun s => s.time.length)).sum)
    ∧ (∀ i, i < ss.length → getStep (ofSteps ss) i = ss.getD i emptyStepSolution)
    ∧ (∀ i, i < ss.length →
        (ofSteps ss).offsets.getD i 0 = ((ss.take i).map stepElapsed).sum) := by
  refine ⟨ofStepsAux_lengths ss 0 hwf,
    fun i hi => getStep_ofStepsAux_getD ss 0 i hwf hi,
    fun i hi => ?_⟩
  rw [ofSteps, ofStepsAux_offsets ss 0 i hi, zero_add]

/-- C4 witness: the two concrete steps `wStepA`, `wStepB` — step 1 is
recovered exactly and the four-point concatenated length checks out. -/
theorem c4_cycle_aggregation_witness :
    (∀ s ∈ [wStepA, wStepB], WFStep s)
    ∧ (1 : ℕ) < 2
    ∧ getStep (ofSteps [wStepA, wStepB]) 1 = wStepB
    ∧ (ofSteps [wStepA, wStepB]).time.length = 4 := by
  have hwf : ∀ s ∈ [wStepA, wStepB], WFStep s := by decide
  refine ⟨hwf, by norm_num, ?_, ?_⟩
  · exact ((c4_cycle_aggregation [wStepA, wStepB] hwf).2.1 1 (by norm_num)).trans rfl
  · exact ((c4_cycle_aggregation [wStepA, wStepB] hwf).1.1).trans rfl

/-- A step's solution carries exactly the backend outcome's success flag. -/
theorem runStepAt_success (p : Params) (oc : SolverOutcome) (s0 : SimState)
    (st : Step) : (runStepAt p oc s0 st).1.success = outcomeSuccess oc := rfl

/-- On a failed backend outcome, a step's solution records the failure's
status code. -/
theorem runStepAt_status_fail (p : Params) (oc : SolverOutcome) (s0 : SimState)
    (st : Step) (h : outcomeSuccess oc = false) :
    (runStepAt p oc s0 st).1.status = outcomeStatus oc := by
  simp only [runStepAt]
  rw [h]
  simp

/-- The i-th StepSolution of a multi-step run carries the i-th backend
outcome's success flag, and on failure its (negative) status code. -/
theorem runSteps_success_status (p : Params) :
    ∀ (steps : List Step) (ocs : List SolverOutcome) (s0 : SimState) (i : ℕ),
      i < steps.length →
      ((runSteps p steps ocs s0).1.getD i emptyStepSolution).success
          = outcomeSuccess ((ocs.drop i).headD SolverOutcome.success)
      ∧ (outcomeSuccess ((ocs.drop i).headD SolverOutcome.success) = false →
          ((runSteps p steps ocs s0).1.getD i emptyStepSolution).status
            = outcomeStatus ((ocs.drop i).headD SolverOutcome.success)) := by
  intro steps
  induction steps with
  | nil => intro ocs s0 i hi; simp at hi
  | cons st rest ih =>
    intro ocs s0 i hi
    cases i with
    | zero =>
      simp only [runSteps, List.getD_cons_zero, List.drop_zero]
      exact ⟨runStepAt_success _ _ _ _, fun hfail => runStepAt_status_fail _ _ _ _ hfail⟩
    | succ n =>
      simp only [runSteps, List.getD_cons_succ]
      have hdrop : ocs.tail.drop n = ocs.drop (n + 1) := by
        rw [← List.drop_one, List.drop_drop, Nat.add_comm]
      rw [← hdrop]
      exact ih ocs.tail _ n (by simpa using hi)

/-- C6: an integration failure never raises — `runSteps`, `run` and a
Prediction advance are total functions that return one inspectable result
per step regardless of the backend's termination conditions; a failed
step's result carries `success = false` and the failure's status code, and
subsequent steps still execute (the solution list always has one entry per
step). -/
theorem c6_failure_reported_not_raised (p : Params) (steps : List Step)
    (ocs : List SolverOutcome) (s0 : SimState) (st : Step) (oc : SolverOutcome) :
    (runSteps p steps ocs s0).1.length = steps.length
    ∧ (run p steps ocs s0 false).1.success.length = steps.length
    ∧ (∀ i, i < steps.length →
        ((runSteps p steps ocs s0).1.getD i emptyStepSolution).success
            = outcomeSuccess ((ocs.drop i).headD SolverOutcome.success)
        ∧ (outcomeSuccess ((ocs.drop i).headD SolverOutcome.success) = false →
            ((runSteps p steps ocs s0).1.getD i emptyStepSolution).status
              = outcomeStatus ((ocs.drop i).headD SolverOutcome.success)))
    ∧ (predict p oc s0 st).2.2 = outcomeSuccess oc := by
  have hlen : ∀ (steps : List Step) (ocs : List SolverOutcome) (s0 : SimState),
      (runSteps p steps ocs s0).1.length = steps.length := by
    intro steps
    induction steps with
    | nil => intro ocs s0; rfl
    | cons st' rest ih => intro ocs s0; simp [runSteps, ih]
  have hsucclen : ∀ (ss : List StepSolution) (off : ℚ),
      (ofStepsAux off ss).success.length = ss.length := by
    intro ss
    induction ss with
    | nil => intro off; rfl
    | cons s' rest ih => intro off; simp [ofStepsAux, ih]
  refine ⟨hlen steps ocs s0, ?_, fun i hi => runSteps_success_status p steps ocs s0 i hi, rfl⟩
  show (ofSteps (runSteps p steps ocs s0).1).success.length = steps.length
  rw [ofSteps, hsucclen, hlen]

/-- C6 witness: a non-convergence outcome on a one-step experiment still
yields a (single) inspectable StepSolution whose success flag is false and
whose status is the failure code −1. -/
theorem c6_failure_reported_not_raised_witness :
    (0 : ℕ) < 1
    ∧ ((runSteps sampleParams [wRestStep] [SolverOutcome.nonConverged]
          (restedState sampleParams)).1.getD 0 emptyStepSolution).success = false
    ∧ ((runSteps sampleParams [wRestStep] [SolverOutcome.nonConverged]
          (restedState sampleParams)).1.getD 0 emptyStepSolution).status = -1 := by
  have h := (c6_failure_reported_not_raised sampleParams [wRestStep]
    [SolverOutcome.nonConverged] (restedState sampleParams) wRestStep
    SolverOutcome.nonConverged).2.2.1 0 (by norm_num)
  exact ⟨by norm_num, h.1.trans rfl, (h.2 rfl).trans rfl⟩

/-- With the default parameters (`gamma = 0`) the hysteresis rate vanishes
identically. -/
theorem defaultParams_hDot (I : ℚ) (s : SimState) : hDot defaultParams I s = 0 := by
  rw [hDot]
  have hg : defaultParams.gamma = 0 := rfl
  rw [hg]
  simp

/-- With the default parameters an Euler update never changes `h`. -/
theorem eulerStep_h_default (I dt : ℚ) (s : SimState) :
    (eulerStep defaultParams I dt s).h = s.h := by
  show s.h + dt * hDot defaultParams I s = s.h
  rw [defaultParams_hDot]
  ring

/-- Marching the default-parameter model keeps `h = 0` at every saved
point. -/
theorem march_h_zero (st : Step) :
    ∀ (grid : List ℚ) (s : SimState), s.h = 0 →
      ∀ pt ∈ march defaultParams st grid s, pt.s.h = 0 := by
  intro grid
  induction grid with
  | nil => intro s hs pt hpt; simp [march] at hpt
  | cons t rest ih =>
    intro s hs pt hpt
    cases rest with
    | nil =>
      rw [march] at hpt
      simp only [List.mem_singleton] at hpt
      rw [hpt]
      exact hs
    | cons t' rest' =>
      rw [march] at hpt
      rcases List.mem_cons.mp hpt with h1 | h2
      · rw [h1]; exact hs
      · exact ih _ (by rw [eulerStep_h_default]; exact hs) pt h2

/-- Truncating at a limit only drops points: every kept point was in the
original trajectory. -/
theorem mem_truncateAtLimit (p : Params) (st : Step) (traj : List TrajPt)
    (pt : TrajPt) (hpt : pt ∈ (truncateAtLimit p st traj).1) : pt ∈ traj := by
  rcases traj with _ | ⟨pt0, rest⟩
  · simp [truncateAtLimit] at hpt
  · rw [truncateAtLimit] at hpt
    rcases hfind : rest.findIdx? (fun pt => st.limits.any
        (fun l => decide (limitGap p l pt * limitGap p l pt0 ≤ 0))) with _ | i
    · rw [hfind] at hpt
      exact hpt
    · rw [hfind] at hpt
      rcases List.mem_cons.mp hpt with h1 | h2
      · rw [h1]; exact List.mem_cons_self _ _
      · exact List.mem_cons_of_mem _ (List.take_subset _ _ h2)

/-- One step of the default-parameter model keeps every saved hysteresis
value and the final state's `h` at zero. -/
theorem runStepAt_h_zero (oc : SolverOutcome) (st : Step) (s0 : SimState)
    (hs : s0.h = 0) :
    (∀ x ∈ (runStepAt defaultParams oc s0 st).1.hyst, x = 0)
    ∧ (runStepAt defaultParams oc s0 st).2.h = 0 := by
  constructor
  · intro x hx
    rcases List.mem_map.mp hx with ⟨pt, hpt, hval⟩
    rw [← hval]
    exact march_h_zero st _ s0 hs pt (mem_truncateAtLimit _ _ _ _ hpt)
  · show ((((truncateAtLimit defaultParams st
        (march defaultParams st (saveGrid st.tmax st.second) s0)).1.getLast?).map
          TrajPt.s).getD s0).h = 0
    rcases hlast : (truncateAtLimit defaultParams st
        (march defaultParams st (saveGrid st.tmax st.second) s0)).1.getLast? with _ | pt
    · simpa [hlast] using hs
    · have hmem := mem_truncateAtLimit defaultParams st _ pt
        (List.mem_of_mem_getLast? hlast)
      simp only [hlast, Option.map_some', Option.getD_some]
      exact march_h_zero st _ s0 hs pt hmem

/-- A whole multi-step run of the default-parameter model keeps all saved
hysteresis values and the final live state's `h` at zero. -/
theorem runSteps_h_zero :
    ∀ (steps : List Step) (ocs : List SolverOutcome) (s0 : SimState), s0.h = 0 →
      (∀ sol ∈ (runSteps defaultParams steps ocs s0).1, ∀ x ∈ sol.hyst, x = 0)
      ∧ (runSteps defaultParams steps ocs s0).2.h = 0 := by
  intro steps
  induction steps with
  | nil => intro ocs s0 hs; exact ⟨by simp [runSteps], hs⟩
  | cons st rest ih =>
    intro ocs s0 hs
    have hstep := runStepAt_h_zero (ocs.headD SolverOutcome.success) st s0 hs
    have hrest := ih ocs.tail _ hstep.2
    constructor
    · intro sol hsol
      rw [runSteps] at hsol
      rcases List.mem_cons.mp hsol with h1 | h2
      · rw [h1]; exact hstep.1
      · exact hrest.1 sol h2
    · show (runSteps defaultParams (st :: rest) ocs s0).2.h = 0
      rw [runSteps]
      exact hrest.2

/-- Every entry of an aggregate's hysteresis array comes from one of the
contributing steps. -/
theorem mem_ofStepsAux_hyst :
    ∀ (ss : List StepSolution) (off : ℚ) (x : ℚ),
      x ∈ (ofStepsAux off ss).hyst → ∃ s ∈ ss, x ∈ s.hyst := by
  intro ss
  induction ss with
  | nil => intro off x hx; simp [ofStepsAux] at hx
  | cons s rest ih =>
    intro off x hx
    rw [ofStepsAux] at hx
    rcases List.mem_append.mp hx with h1 | h2
    · exact ⟨s, List.mem_cons_self _ _, h1⟩
    · rcases ih _ x h2 with ⟨t, ht, hxt⟩
      exact ⟨t, List.mem_cons_of_mem _ ht, hxt⟩

/-- C9: the bundled default configuration sets `gamma = 0` and
`M_hyst(soc) = 0` for every soc (a function of soc, not a scalar), so in
every run with default parameters the hysteresis state stays 0 — every
saved hysteresis value is 0 and the terminal state's `h` is 0 — and the
hysteresis term contributes nothing to the terminal voltage or the
heat-generation term. -/
theorem c9_default_hysteresis_inert :
    defaultParams.gamma = 0
    ∧ (∀ q : ℚ, defaultParams.Mhyst q = 0)
    ∧ (∀ (steps : List Step) (ocs : List SolverOutcome) (rs : Bool),
        ∀ x ∈ (run defaultParams steps ocs (restedState defaultParams) rs).1.hyst,
          x = 0)
    ∧ (∀ (steps : List Step) (ocs : List SolverOutcome),
        (runSteps defaultParams steps ocs (restedState defaultParams)).2.h = 0)
    ∧ (∀ (I : ℚ) (s : SimState), s.h = 0 →
        VcellOf defaultParams I s
          = defaultParams.ocv s.soc - s.V.sum - I * defaultParams.R0 s.soc s.Tcell)
    ∧ (∀ (I : ℚ) (s : SimState), s.h = 0 →
        qgen defaultParams I s = I * (s.V.sum + I * defaultParams.R0 s.soc s.Tcell)) := by
  refine ⟨rfl, fun q => rfl, fun steps ocs rs x hx => ?_, fun steps ocs =>
    (runSteps_h_zero steps ocs _ rfl).2, fun I s hs => ?_, fun I s hs => ?_⟩
  · rcases mem_ofStepsAux_hyst _ 0 x hx with ⟨sol, hsol, hxs⟩
    exact (runSteps_h_zero steps ocs _ rfl).1 sol hsol x hxs
  · rw [VcellOf, hs]
    ring
  · rw [qgen, VcellOf, hs]
    ring

/-- C9 witness: the rested default state has `h = 0` and its terminal
voltage carries no hysteresis term. -/
theorem c9_default_hysteresis_inert_witness :
    (restedState defaultParams).h = 0
    ∧ VcellOf defaultParams 0 (restedState defaultParams)
        = defaultParams.ocv (restedState defaultParams).soc
          - (restedState defaultParams).V.sum
          - 0 * defaultParams.R0 (restedState defaultParams).soc
              (restedState defaultParams).Tcell :=
  ⟨rfl, c9_default_hysteresis_inert.2.2.2.2.1 0 (restedState defaultParams) rfl⟩

end Thevenin
